import Mathlib

/-!
Verification of the go2web HTTP/1.1 client core (`main.py`).

The embedding models Python strings as `List Char` (a Python `str` is a
sequence of code points) at the level of the low-level primitives, and as
Lean `String` at the level of the HTTP functions.  Python `dict`s are
modelled as association lists with Python's insertion-order / last-write
semantics.  The filesystem-backed response cache is modelled as an explicit
association list from file names to entries, and `time.time()` as an
explicit parameter.  Possibly non-terminating loops take an explicit fuel
argument; `none` means the loop has not finished within the given fuel.
-/

/-! ## Python string primitives -/

/-- The characters stripped by Python's `str.strip()` (ASCII fragment;
all inputs in this development are ASCII). -/
def pyWS (c : Char) : Bool :=
  c = ' ' || c = '\t' || c = '\n' || c = '\r' || c = '\x0b' || c = '\x0c'

/-- Python `str.strip()`. -/
def pyStrip (l : List Char) : List Char :=
  ((l.dropWhile pyWS).reverse.dropWhile pyWS).reverse

/-- Index of the first occurrence of `sub` in `hay` (Python `str.find`
without a start offset), as an option. -/
def findAux : List Char → List Char → Option Nat
  | [], sub => if sub.isPrefixOf ([] : List Char) then some 0 else none
  | c :: t, sub =>
    if sub.isPrefixOf (c :: t) then some 0 else (findAux t sub).map (fun i => i + 1)

/-- Clamp an (possibly negative) Python index into `[0, n]`, as Python
slicing does: negative indices count from the end. -/
def pyClamp (n : Nat) (i : Int) : Nat :=
  if i < 0 then ((n : Int) + i).toNat else min i.toNat n

/-- Python slice `l[a:b]`. -/
def pySlice (l : List Char) (a b : Int) : List Char :=
  (l.take (pyClamp l.length b)).drop (pyClamp l.length a)

/-- Python slice `l[a:]`. -/
def pySliceFrom (l : List Char) (a : Int) : List Char :=
  l.drop (pyClamp l.length a)

/-- Python `hay.find(sub, start)`: `-1` when absent. -/
def pyFind (hay sub : List Char) (start : Int) : Int :=
  let s : Nat := if start < 0 then ((hay.length : Int) + start).toNat else start.toNat
  match findAux (hay.drop s) sub with
  | some i => ((s + i : Nat) : Int)
  | none => -1

/-! ## Python `int(s, 16)` -/

/-- Value of a hexadecimal digit character. -/
def hexVal? (c : Char) : Option Nat :=
  if '0' ≤ c ∧ c ≤ '9' then some (c.toNat - '0'.toNat)
  else if 'a' ≤ c ∧ c ≤ 'f' then some (c.toNat - 'a'.toNat + 10)
  else if 'A' ≤ c ∧ c ≤ 'F' then some (c.toNat - 'A'.toNat + 10)
  else none

/-- Remaining digits of a hexadecimal literal: CPython allows single
underscores between digits. `acc` is the value of the digits read so far. -/
def hexDigitsRest : List Char → Nat → Option Nat
  | [], acc => some acc
  | c :: rest, acc =>
    if c = '_' then
      match rest with
      | [] => none
      | c2 :: rest2 =>
        match hexVal? c2 with
        | some d => hexDigitsRest rest2 (acc * 16 + d)
        | none => none
    else
      match hexVal? c with
      | some d => hexDigitsRest rest (acc * 16 + d)
      | none => none

/-- Body of a hexadecimal literal after an optional sign: an optional
`0x`/`0X` prefix (which may be followed by one underscore) and then
digits with optional single underscores between them. -/
def parseHexBody (l : List Char) : Option Nat :=
  match l with
  | [] => none
  | c :: rest =>
    if c = '0' then
      match rest with
      | [] => some 0
      | x :: rest2 =>
        if x = 'x' ∨ x = 'X' then
          match rest2 with
          | [] => none
          | y :: rest3 =>
            if y = '_' then
              match rest3 with
              | [] => none
              | z :: rest4 =>
                match hexVal? z with
                | some d => hexDigitsRest rest4 d
                | none => none
            else
              match hexVal? y with
              | some d => hexDigitsRest rest3 d
              | none => none
        else
          hexDigitsRest (x :: rest2) 0
    else
      match hexVal? c with
      | some d => hexDigitsRest rest d
      | none => none

/-- Python `int(s, 16)`: strips whitespace, accepts an optional sign,
returns `none` where CPython raises `ValueError`. -/
def pyIntHex (s : List Char) : Option Int :=
  match pyStrip s with
  | [] => none
  | c :: rest =>
    if c = '+' then (parseHexBody rest).map (fun k => (k : Int))
    else if c = '-' then (parseHexBody rest).map (fun k => -(k : Int))
    else (parseHexBody (c :: rest)).map (fun k => (k : Int))

/-! ## Chunked transfer decoding (`decode_chunked_response`, main.py 142-179) -/

def crlf : List Char := ['\r', '\n']

/-- One pass of the `while index < len(body)` loop of
`decode_chunked_response`.  The loop in the source has no a-priori bound
(and in fact does not always terminate), so the embedding takes fuel;
`none` means the loop has not exited within `fuel` iterations. -/
def decodeLoop (body : List Char) : Nat → Int → List Char → Option (List Char)
  | 0, _, _ => none
  | fuel + 1, index, decoded =>
    if index < (body.length : Int) then
      let e := pyFind body crlf index
      if e = -1 then some (decoded ++ pySliceFrom body index)
      else
        let line0 := pyStrip (pySlice body index e)
        let line := if line0.contains ';' then line0.takeWhile (fun c => c != ';') else line0
        match pyIntHex line with
        | none => some (decoded ++ pySliceFrom body index)
        | some chunkSize =>
          if chunkSize = 0 then some decoded
          else
            let chunkStart := e + 2
            let chunkEnd := chunkStart + chunkSize
            if chunkEnd ≤ (body.length : Int) then
              decodeLoop body fuel (chunkEnd + 2) (decoded ++ pySlice body chunkStart chunkEnd)
            else
              some (decoded ++ pySliceFrom body chunkStart)
    else some decoded

/-- `decode_chunked_response(body)` with explicit fuel for the while loop. -/
def decode_chunked_response (fuel : Nat) (body : List Char) : Option (List Char) :=
  decodeLoop body fuel 0 []

/-! ## A canonical well-formed chunked encoder (from the claim's framing:
hex size line, CRLF, chunk bytes, CRLF, …, zero-size terminator) -/

/-- Lowercase hexadecimal digit character. -/
def hexDigit (k : Nat) : Char :=
  if k < 10 then Char.ofNat (48 + k) else Char.ofNat (87 + k)

/-- Hexadecimal printer core; fuel-driven (fuel `≥ n` suffices). -/
def toHexCore : Nat → Nat → List Char → List Char
  | 0, n, acc => hexDigit n :: acc
  | fuel + 1, n, acc =>
    if n < 16 then hexDigit n :: acc
    else toHexCore fuel (n / 16) (hexDigit (n % 16) :: acc)

/-- Lowercase hexadecimal representation of `n`. -/
def toHexL (n : Nat) : List Char := toHexCore n n []

/-- One well-formed chunk: hex size line, CRLF, the chunk data, CRLF. -/
def encodeChunk (c : List Char) : List Char :=
  toHexL c.length ++ crlf ++ c ++ crlf

/-- A well-formed chunked stream for the given chunk list, terminated by a
zero-size chunk. -/
def encodeChunks (cs : List (List Char)) : List Char :=
  (cs.map encodeChunk).flatten ++ ('0' :: crlf ++ crlf)

/-! ## String helpers over the `List Char` primitives -/

/-- Python `s.startswith(pre)`. -/
def strStartsWith (s pre : String) : Bool := pre.data.isPrefixOf s.data

/-- Python `s.split(sep, 1)` when it produces two parts; `none` when `sep`
does not occur. -/
def splitFirstS (s sep : String) : Option (String × String) :=
  match findAux s.data sep.data with
  | none => none
  | some i => some (⟨s.data.take i⟩, ⟨s.data.drop (i + sep.data.length)⟩)

/-- Python `s.split(sep, maxsplit)` (and `s.split(sep)` when `maxsplit`
bounds the possible number of splits, e.g. `length + 1`). -/
def splitListAux : Nat → List Char → List Char → List (List Char)
  | 0, l, _ => [l]
  | maxsplit + 1, l, sep =>
    match findAux l sep with
    | none => [l]
    | some i => l.take i :: splitListAux maxsplit (l.drop (i + sep.length)) sep

/-- Python `s.split(sep, maxsplit)`. -/
def strSplitN (s sep : String) (maxsplit : Nat) : List String :=
  (splitListAux maxsplit s.data sep.data).map (fun l => ⟨l⟩)

/-- Python `s.split(sep)` (unbounded; `sep` non-empty). -/
def strSplit (s sep : String) : List String :=
  strSplitN s sep (s.data.length + 1)

/-- Python `s.strip()` on `String`. -/
def pyStripS (s : String) : String := ⟨pyStrip s.data⟩

/-- Python `s.split(" ")[0]`: the prefix before the first space. -/
def firstToken (s : String) : String := ⟨s.data.takeWhile (fun c => c != ' ')⟩

/-- Python `str.lower()` (ASCII fragment). -/
def charLower (c : Char) : Char :=
  if 'A' ≤ c ∧ c ≤ 'Z' then Char.ofNat (c.toNat + 32) else c

/-- Python `s.lower()`. -/
def strToLower (s : String) : String := ⟨s.data.map charLower⟩

/-- Python `sub in s`. -/
def strContains (s sub : String) : Bool := (findAux s.data sub.data).isSome

/-! ## Python dicts as insertion-ordered association lists -/

/-- `d[k] = v`: replace the value at the first (unique, for a real dict)
occurrence of `k` keeping its position, else append. -/
def dictSet {α : Type} : List (String × α) → String → α → List (String × α)
  | [], k, v => [(k, v)]
  | (k', v') :: rest, k, v =>
    if k' = k then (k', v) :: rest else (k', v') :: dictSet rest k v

/-- `d.update(kvs)`. -/
def dictUpdate {α : Type} (d : List (String × α)) (kvs : List (String × α)) :
    List (String × α) :=
  kvs.foldl (fun acc p => dictSet acc p.1 p.2) d

/-- `d.get(k)` / `d[k]`: the value at the first (unique) occurrence. -/
def dictLookup {α : Type} : List (String × α) → String → Option α
  | [], _ => none
  | (k', v') :: rest, k => if k' = k then some v' else dictLookup rest k

/-- `del d[k]` (also `os.remove` on the cache model). -/
def dictErase {α : Type} : List (String × α) → String → List (String × α)
  | [], _ => []
  | (k', v') :: rest, k => if k' = k then dictErase rest k else (k', v') :: dictErase rest k

/-- Number of entries of `d` carrying key `k`. -/
def countKey {α : Type} : List (String × α) → String → Nat
  | [], _ => 0
  | (k', _) :: rest, k => (if k' = k then 1 else 0) + countKey rest k

abbrev Headers := List (String × String)

abbrev Triple := String × Headers × String

/-! ## Request builder (`create_http_request`, main.py 68-97) -/

def USER_AGENT : String :=
  "Mozilla/5.0 (Windows NT 10.0; Win64; x64) AppleWebKit/537.36 (KHTML, like Gecko) Chrome/123.0.0.0 Safari/537.36"

/-- The header set injected by `headers.update({...})` (main.py 80-86). -/
def mandatoryHeaders (host : String) : Headers :=
  [("Host", host), ("User-Agent", USER_AGENT),
   ("Accept", "text/html,application/json,*/*"),
   ("Accept-Encoding", "identity"), ("Connection", "close")]

/-- The headers dict after `headers.update({...})`. -/
def mergedHeaders (headers : Headers) (host : String) : Headers :=
  dictUpdate headers (mandatoryHeaders host)

/-- `''.join(f"{key}: {value}\r\n" for key, value in headers.items())`. -/
def headerLines (hs : Headers) : String :=
  hs.foldl (fun acc p => acc ++ p.1 ++ ": " ++ p.2 ++ "\r\n") ""

/-- `create_http_request`, returning both the request text and the final
state of the (caller-visible) headers dict.  Note that in the source the
`Content-Length` assignment happens after `request` has already been
serialized, so it lands in the dict but not in the returned text. -/
def create_http_request_full (host method path : String) (headers : Option Headers)
    (body : Option String) : String × Headers :=
  let hs0 := headers.getD []
  let hs := mergedHeaders hs0 host
  let request_line := method ++ " " ++ path ++ " HTTP/1.1\r\n"
  let request := request_line ++ headerLines hs ++ "\r\n"
  match body with
  | some b =>
    if b ≠ "" then (request ++ b, dictSet hs "Content-Length" (toString b.length))
    else (request, hs)
  | none => (request, hs)

/-- The request text returned by `create_http_request`. -/
def create_http_request (host method path : String) (headers : Option Headers)
    (body : Option String) : String :=
  (create_http_request_full host method path headers body).1

/-! ## URL decomposer (`parse_url`, main.py 100-117) -/

/-- `parse_url(url) = (host, path, protocol, port)`; `urlparse` modelled for
`scheme://netloc/path?query#fragment` shapes, which is what the prefixing
on line 102-103 guarantees. -/
def parse_url (url : String) : String × String × String × Nat :=
  let url := if strStartsWith url "http://" || strStartsWith url "https://"
             then url else "https://" ++ url
  let scheme : String := if strStartsWith url "https://" then "https" else "http"
  let rest := if strStartsWith url "https://" then url.data.drop 8 else url.data.drop 7
  let hostL := rest.takeWhile (fun c => !(c == '/' || c == '?' || c == '#'))
  let afterHost := rest.drop hostL.length
  let pathL := afterHost.takeWhile (fun c => !(c == '?' || c == '#'))
  let afterPath := afterHost.drop pathL.length
  let queryL : List Char :=
    match afterPath with
    | '?' :: t => t.takeWhile (fun c => c != '#')
    | _ => []
  let host : String := ⟨hostL⟩
  let path0 : String := ⟨pathL⟩
  let query : String := ⟨queryL⟩
  let path1 := if path0 = "" then "/" else path0
  let path := if query ≠ "" then path1 ++ "?" ++ query else path1
  let port := if scheme = "https" then 443 else 80
  (host, path, scheme, port)

/-! ## Response decoder (`process_headers` / `parse_response`, main.py 120-193) -/

/-- Exceptions the decoder can raise. -/
inductive PyErr where
  | attributeError
  | valueError
  | indexError
deriving DecidableEq, Repr

/-- `process_headers` (main.py 120-139).  A status line with no space at
all would hit `parts[1]` out of range (`IndexError`). -/
def process_headers (headers : String) : Except PyErr Headers :=
  (strSplit headers "\r\n").foldl
    (fun acc line =>
      match acc with
      | .error e => .error e
      | .ok d =>
        match splitFirstS line ":" with
        | some (key, value) => .ok (dictSet d (pyStripS key) (pyStripS value))
        | none =>
          if strStartsWith line "HTTP/" then
            let parts := strSplitN line " " 2
            if parts.length > 2 then
              .ok (dictSet d "Status" ((parts.getD 1 "") ++ " " ++ (parts.getD 2 "")))
            else if parts.length ≥ 2 then
              .ok (dictSet d "Status" (parts.getD 1 ""))
            else .error .indexError
          else .ok d)
    (.ok [])

/-- `parse_response` (main.py 182-193).  `none` as input models the `None`
a failed `send_http_request` returns (`None.split` raises
`AttributeError`); a missing `\r\n\r\n` separator makes the 2-element
unpacking raise `ValueError`.  The outer `Option` is fuel exhaustion of
the chunked decoder. -/
def parse_response (fuel : Nat) (response : Option String) :
    Option (Except PyErr Triple) :=
  match response with
  | none => some (.error .attributeError)
  | some r =>
    match splitFirstS r "\r\n\r\n" with
    | none => some (.error .valueError)
    | some (head, body) =>
      match process_headers head with
      | .error e => some (.error e)
      | .ok headers =>
        let status_code := firstToken ((dictLookup headers "Status").getD "")
        match dictLookup headers "Transfer-Encoding" with
        | some te =>
          if strToLower te = "chunked" then
            match decode_chunked_response fuel body.data with
            | none => none
            | some d => some (.ok (status_code, headers, (⟨d⟩ : String)))
          else some (.ok (status_code, headers, body))
        | none => some (.ok (status_code, headers, body))

/-! ## Transport (`send_http_request`, main.py 17-65) -/

/-- Connection-level failure kinds (exceptions inside the `try` block). -/
inductive SockErr where
  | dnsFailure
  | connectFailure
  | tlsFailure
  | writeFailure
  | unexpected
deriving DecidableEq, Repr

/-- `send_http_request`.  The socket interaction is abstracted by its
outcome: `.ok text` is the accumulated response, already decoded (the
first `decode(encoding, errors='replace')` attempt never raises, so the
loop over encodings returns immediately); `.error` is any exception
raised inside the `try` block, on which the source returns
`print(f"Error...")`, i.e. `None`.  `finally: sock.close()` does not
affect the returned value. -/
def send_http_request (sock : Except SockErr String) : Option String :=
  match sock with
  | .ok data => some data
  | .error _ => none

/-- A network oracle: what the socket layer does for a given
`(host, port, request)`. -/
abbrev Net := String → Nat → String → Except SockErr String

/-! ## Response cache (`cache_response` / `get_cached_response`, main.py 196-251) -/

def CACHE_EXPIRATION : Int := 3600

structure CacheEntry where
  timestamp : Int
  status_code : String
  headers : Headers
  body : String
deriving DecidableEq, Repr

/-- The cache directory: file name ↦ deserialized JSON content (the JSON
round-trip of `{timestamp, status_code, headers, body}` is the identity
on this data). -/
abbrev CacheState := List (String × CacheEntry)

/-- `[^a-zA-Z0-9]` complement. -/
def isAlnumA (c : Char) : Bool :=
  ('a' ≤ c && c ≤ 'z') || ('A' ≤ c && c ≤ 'Z') || ('0' ≤ c && c ≤ '9')

/-- `re.sub(r'[^a-zA-Z0-9]', '_', url)` truncated to 255 characters
(main.py 200-203 and 230-233). -/
def cacheKey (url : String) : String :=
  let l := url.data.map (fun c => if isAlnumA c then c else '_')
  if l.length > 255 then ⟨l.take 255⟩ else ⟨l⟩

/-- `cache_response(url, status_code, headers, body)`: write the entry file
(`now` is `time.time()`). -/
def cache_response (now : Int) (st : CacheState) (url status_code : String)
    (headers : Headers) (body : String) : CacheState :=
  dictSet st (cacheKey url) ⟨now, status_code, headers, body⟩

/-- `get_cached_response(url)`: returns the (possibly changed by lazy
expiration) cache directory and the entry, if any. -/
def get_cached_response (now : Int) (st : CacheState) (url : String) :
    CacheState × Option CacheEntry :=
  match dictLookup st (cacheKey url) with
  | none => (st, none)
  | some e =>
    if now - e.timestamp > CACHE_EXPIRATION then (dictErase st (cacheKey url), none)
    else (st, some e)

/-! ## Redirect resolver (`fetch_url`, main.py 254-310) -/

/-- Location resolution against the current scheme/host
(main.py 285-292). -/
def resolve_location (protocol host location : String) : String :=
  if strStartsWith location "http" then location
  else if strStartsWith location "//" then protocol ++ ":" ++ location
  else if strStartsWith location "/" then protocol ++ "://" ++ host ++ location
  else protocol ++ "://" ++ host ++ "/" ++ location

/-- Lines 274-277 of the loop body: decompose, build, send, parse. -/
def fetch_step (net : Net) (fuel : Nat) (url : String) : Option (Except PyErr Triple) :=
  let pu := parse_url url
  let request := create_http_request pu.1 "GET" pu.2.1 none none
  parse_response fuel (send_http_request (net pu.1 pu.2.2.2 request))

/-- The `while redirect_count < max_redirects` loop.  The first `Nat`
argument is `max_redirects - redirect_count`; the final `Nat` of the
result counts executed loop iterations (instrumentation for the
termination claims). -/
def fetchLoop (net : Net) (fuel : Nat) (cacheFlag : Bool) (origUrl : String) (now : Int) :
    Nat → List String → String → Option Triple → CacheState → Nat →
    Option (Except PyErr (Option Triple × CacheState × Nat))
  | 0, _, _, last, st, iters => some (.ok (last, st, iters))
  | remaining + 1, visited, redirect_url, _, st, iters =>
    match fetch_step net fuel redirect_url with
    | none => none
    | some (.error e) => some (.error e)
    | some (.ok t) =>
      if strStartsWith t.1 "3" then
        match dictLookup t.2.1 "Location" with
        | none => some (.ok (some t, st, iters + 1))
        | some location =>
          let ru := resolve_location (parse_url redirect_url).2.2.1
                      (parse_url redirect_url).1 location
          if visited.contains ru then some (.ok (some t, st, iters + 1))
          else fetchLoop net fuel cacheFlag origUrl now remaining (ru :: visited) ru
                 (some t) st (iters + 1)
      else
        some (.ok (some t,
          (if cacheFlag then cache_response now st origUrl t.1 t.2.1 t.2.2 else st),
          iters + 1))

/-- `fetch_url(url, max_redirects, cache)`: consult the cache, then loop.
Result: the returned `(status_code, headers, body)` triple (`none` for the
initial `None, None, None` when the loop never ran), the final cache
directory, and the number of loop iterations. -/
def fetch_url (net : Net) (fuel : Nat) (now : Int) (url : String) (max_redirects : Nat)
    (cacheFlag : Bool) (st : CacheState) :
    Option (Except PyErr (Option Triple × CacheState × Nat)) :=
  if cacheFlag then
    match get_cached_response now st url with
    | (st', some e) => some (.ok (some (e.status_code, e.headers, e.body), st', 0))
    | (st', none) => fetchLoop net fuel cacheFlag url now max_redirects [url] url none st' 0
  else fetchLoop net fuel cacheFlag url now max_redirects [url] url none st 0

/-! ## Dictionary lemmas -/

theorem dictLookup_dictSet_self {α : Type} (d : List (String × α)) (k : String) (v : α) :
    dictLookup (dictSet d k v) k = some v := by
  induction d with
  | nil => simp [dictSet, dictLookup]
  | cons p rest ih =>
    obtain ⟨k', v'⟩ := p
    by_cases h : k' = k
    · subst h; simp [dictSet, dictLookup]
    · simp [dictSet, h, dictLookup, ih]

theorem dictLookup_dictSet_ne {α : Type} (d : List (String × α)) (k k' : String) (v : α)
    (h : k' ≠ k) : dictLookup (dictSet d k v) k' = dictLookup d k' := by
  induction d with
  | nil => simp [dictSet, dictLookup, Ne.symm h]
  | cons p rest ih =>
    obtain ⟨k'', v''⟩ := p
    by_cases hk : k'' = k
    · subst hk
      simp [dictSet, dictLookup, Ne.symm h]
    · by_cases hk' : k'' = k'
      · subst hk'; simp [dictSet, hk, dictLookup]
      · simp [dictSet, hk, dictLookup, hk', ih]

theorem countKey_dictSet_self {α : Type} (d : List (String × α)) (k : String) (v : α) :
    countKey (dictSet d k v) k = if countKey d k = 0 then 1 else countKey d k := by
  induction d with
  | nil => simp [dictSet, countKey]
  | cons p rest ih =>
    obtain ⟨k', v'⟩ := p
    by_cases h : k' = k
    · subst h; simp [dictSet, countKey]
    · simp [dictSet, h, countKey, ih]

theorem countKey_dictSet_ne {α : Type} (d : List (String × α)) (k k' : String) (v : α)
    (h : k' ≠ k) : countKey (dictSet d k v) k' = countKey d k' := by
  induction d with
  | nil => simp [dictSet, countKey, Ne.symm h]
  | cons p rest ih =>
    obtain ⟨k'', v''⟩ := p
    by_cases hk : k'' = k
    · subst hk; simp [dictSet, countKey, Ne.symm h]
    · simp [dictSet, hk, countKey, ih]

theorem countKey_eq_zero_of_not_mem {α : Type} (d : List (String × α)) (k : String)
    (h : k ∉ d.map Prod.fst) : countKey d k = 0 := by
  induction d with
  | nil => simp [countKey]
  | cons p rest ih =>
    obtain ⟨k', v'⟩ := p
    simp only [List.map_cons, List.mem_cons, not_or] at h
    simp [countKey, Ne.symm h.1, ih h.2]

theorem countKey_le_one_of_nodup {α : Type} (d : List (String × α)) (k : String)
    (h : (d.map Prod.fst).Nodup) : countKey d k ≤ 1 := by
  induction d with
  | nil => simp [countKey]
  | cons p rest ih =>
    obtain ⟨k', v'⟩ := p
    simp only [List.map_cons, List.nodup_cons] at h
    by_cases hk : k' = k
    · subst hk
      simp [countKey, countKey_eq_zero_of_not_mem rest k' h.1]
    · simp [countKey, hk, ih h.2]

theorem countKey_dictSet_of_le_one {α : Type} (d : List (String × α)) (k : String) (v : α)
    (h : countKey d k ≤ 1) : countKey (dictSet d k v) k = 1 := by
  rw [countKey_dictSet_self]
  split <;> omega

/-! ## C7: chunked decoding is not total -/

/-- C7: the claim says `decode_chunked_response` terminates on every input,
returning the decoded prefix plus the literal remainder.  It does not: on
the body `"  -8\r\n"` the size line strips to `"-8"`, `int("-8", 16) = -8`
makes `chunk_end = -2 ≤ len(body)`, the slice `body[6:-2]` is empty and
`index` is reset to `chunk_end + 2 = 0`, so the loop state repeats forever.
Formally: the fuelled loop never exits, for any amount of fuel. -/
theorem decode_chunked_response_nonterminating :
    ∀ fuel : Nat, decode_chunked_response fuel ("  -8\r\n".data) = none := by
  intro fuel
  induction fuel with
  | zero => rfl
  | succ n ih => exact ih

/-! ## C10: the cache key is not injective -/

/-- C10: `"http://a.b"` and `"http://a/b"` are distinct URLs with the same
sanitized cache key, so an entry cached for the first is served for the
second. -/
theorem cacheKey_not_injective :
    (("http://a.b" : String) ≠ "http://a/b" ∧
     cacheKey "http://a.b" = cacheKey "http://a/b") ∧
    get_cached_response 0
        (cache_response 0 [] "http://a.b" "200" [("Content-Type", "text/plain")] "hello")
        "http://a/b"
      = (cache_response 0 [] "http://a.b" "200" [("Content-Type", "text/plain")] "hello",
         some ⟨0, "200", [("Content-Type", "text/plain")], "hello"⟩) := by
  exact ⟨⟨by decide, rfl⟩, rfl⟩

/-! ## C3: cache round-trip and lazy expiration -/

/-- C3: storing an entry and reading it back at the same time returns the
identical triple; an entry strictly older than 3600 seconds is not
returned and its backing file is deleted; an entry at most 3600 seconds
old is returned. -/
theorem cache_roundtrip_and_expiry :
    (∀ (now : Int) (st : CacheState) (url status : String) (headers : Headers) (body : String),
      get_cached_response now (cache_response now st url status headers body) url
        = (cache_response now st url status headers body, some ⟨now, status, headers, body⟩)) ∧
    (∀ (now : Int) (st : CacheState) (url : String) (e : CacheEntry),
      dictLookup st (cacheKey url) = some e → now - e.timestamp > 3600 →
      get_cached_response now st url = (dictErase st (cacheKey url), none)) ∧
    (∀ (now : Int) (st : CacheState) (url : String) (e : CacheEntry),
      dictLookup st (cacheKey url) = some e → now - e.timestamp ≤ 3600 →
      get_cached_response now st url = (st, some e)) := by
  refine ⟨?_, ?_, ?_⟩
  · intro now st url status headers body
    unfold get_cached_response cache_response
    rw [dictLookup_dictSet_self]
    simp [CACHE_EXPIRATION]
  · intro now st url e hl hexp
    unfold get_cached_response
    rw [hl]
    simp only [CACHE_EXPIRATION]
    rw [if_pos hexp]
  · intro now st url e hl hfresh
    unfold get_cached_response
    rw [hl]
    simp only [CACHE_EXPIRATION]
    rw [if_neg (by omega)]

/-- Witness for C3 at concrete inputs. -/
theorem cache_roundtrip_and_expiry_witness :
    (get_cached_response 5 (cache_response 5 [] "http://x" "200"
          [("Content-Type", "text/plain")] "hello") "http://x"
       = (cache_response 5 [] "http://x" "200" [("Content-Type", "text/plain")] "hello",
          some ⟨5, "200", [("Content-Type", "text/plain")], "hello"⟩)) ∧
    (get_cached_response 3601 [("http___x", ⟨0, "200", [], "b"⟩)] "http://x" = ([], none)) ∧
    (get_cached_response 3600 [("http___x", ⟨0, "200", [], "b"⟩)] "http://x"
       = ([("http___x", ⟨0, "200", [], "b"⟩)], some ⟨0, "200", [], "b"⟩)) :=
  ⟨cache_roundtrip_and_expiry.1 5 [] "http://x" "200" [("Content-Type", "text/plain")] "hello",
   cache_roundtrip_and_expiry.2.1 3601 [("http___x", ⟨0, "200", [], "b"⟩)] "http://x"
     ⟨0, "200", [], "b"⟩ rfl (by decide),
   cache_roundtrip_and_expiry.2.2 3600 [("http___x", ⟨0, "200", [], "b"⟩)] "http://x"
     ⟨0, "200", [], "b"⟩ rfl (by decide)⟩

/-! ## C8: Location resolution -/

/-- C8: `fetch_url` resolves a 3xx `Location` with `resolve_location`
(main.py 285-292): an absolute URL (detected by the `http` prefix) is used
verbatim; `//…` inherits the scheme; `/…` inherits scheme and host; any
other value is appended after a literal `/`; in particular scheme `https`,
host `example.com`, `Location: /new` resolves to
`https://example.com/new`. -/
theorem resolve_location_spec (protocol host location : String) :
    (strStartsWith location "http" = true →
      resolve_location protocol host location = location) ∧
    (strStartsWith location "http" = false → strStartsWith location "//" = true →
      resolve_location protocol host location = protocol ++ ":" ++ location) ∧
    (strStartsWith location "http" = false → strStartsWith location "//" = false →
      strStartsWith location "/" = true →
      resolve_location protocol host location = protocol ++ "://" ++ host ++ location) ∧
    (strStartsWith location "http" = false → strStartsWith location "//" = false →
      strStartsWith location "/" = false →
      resolve_location protocol host location = protocol ++ "://" ++ host ++ "/" ++ location) ∧
    resolve_location "https" "example.com" "/new" = "https://example.com/new" := by
  refine ⟨?_, ?_, ?_, ?_, rfl⟩ <;> (intros; simp_all [resolve_location])

/-- Witness for C8: each branch at concrete inputs. -/
theorem resolve_location_spec_witness :
    resolve_location "http" "h.example" "https://other.example/p" = "https://other.example/p" ∧
    resolve_location "https" "h.example" "//cdn.example/p" = "https://cdn.example/p" ∧
    resolve_location "https" "example.com" "/new" = "https://example.com/new" ∧
    resolve_location "http" "h.example" "next.html" = "http://h.example/next.html" :=
  ⟨(resolve_location_spec "http" "h.example" "https://other.example/p").1 rfl,
   (resolve_location_spec "https" "h.example" "//cdn.example/p").2.1 rfl rfl,
   (resolve_location_spec "https" "example.com" "/new").2.2.1 rfl rfl rfl,
   (resolve_location_spec "http" "h.example" "next.html").2.2.2.1 rfl rfl rfl⟩

/-! ## C6: Content-Length never reaches the request text -/

set_option maxRecDepth 16384 in
/-- C6: the claim says the request text contains a `Content-Length` header
for a non-empty body.  In the source, `headers["Content-Length"]` is
assigned only after `request` has been serialized (main.py 94 runs after
91), so the header lands in the caller's dict but never in the returned
text: at host `example.com` with body `"hello"` the text has no
`Content-Length` while the dict ends with `("Content-Length", "5")`.  The
text does have the documented shape request-line / CRLF-joined headers /
blank line / body. -/
theorem create_http_request_content_length_missing :
    strContains (create_http_request "example.com" "GET" "/" none (some "hello"))
        "Content-Length" = false ∧
    dictLookup (create_http_request_full "example.com" "GET" "/" none (some "hello")).2
        "Content-Length" = some "5" ∧
    create_http_request "example.com" "GET" "/" none (some "hello")
      = "GET / HTTP/1.1\r\n" ++ headerLines (mergedHeaders [] "example.com")
        ++ "\r\n" ++ "hello" := by
  refine ⟨by decide, rfl, rfl⟩

/-! ## C5: transport failures are swallowed, but fetch_url still raises -/

/-- C5 counterexample: the claim says `fetch_url` still returns a triple on
a connection-level failure.  It does not: `send_http_request` returns
`None`, and `parse_response(None)` raises `AttributeError`, which
propagates out of `fetch_url`. -/
theorem fetch_url_aborts_on_transport_failure :
    fetch_url (fun _ _ _ => .error .connectFailure) 1 0 "http://a.example/" 10 false []
      = some (.error .attributeError) := rfl

/-- C5 (amended): `send_http_request` recovers every connection-level
failure locally (it returns an absent response instead of raising), but
`fetch_url` does not degrade to a partial result: `parse_response` fails
on the absent response with an `AttributeError`, so `fetch_url` aborts
with an exception instead of returning a `(status, headers, body)`
triple. -/
theorem send_recovers_but_fetch_url_raises :
    (∀ e : SockErr, send_http_request (.error e) = none) ∧
    (∀ (net : Net) (fuel : Nat) (now : Int) (url : String) (maxR : Nat) (st : CacheState)
       (e : SockErr),
      1 ≤ maxR →
      net (parse_url url).1 (parse_url url).2.2.2
          (create_http_request (parse_url url).1 "GET" (parse_url url).2.1 none none)
        = .error e →
      fetch_url net fuel now url maxR false st = some (.error .attributeError)) := by
  constructor
  · intro e; rfl
  · intro net fuel now url maxR st e hm hnet
    obtain ⟨m, rfl⟩ : ∃ m, maxR = m + 1 := ⟨maxR - 1, by omega⟩
    simp only [fetch_url, Bool.false_eq_true, if_false]
    simp only [fetchLoop, fetch_step]
    rw [hnet]
    rfl

/-- Witness for C5 at a concrete failing transport. -/
theorem send_recovers_but_fetch_url_raises_witness :
    send_http_request (.error .connectFailure) = none ∧
    fetch_url (fun _ _ _ => .error .connectFailure) 1 0 "http://a.example/" 1 false []
      = some (.error .attributeError) :=
  ⟨send_recovers_but_fetch_url_raises.1 .connectFailure,
   send_recovers_but_fetch_url_raises.2 (fun _ _ _ => .error .connectFailure) 1 0
     "http://a.example/" 1 [] .connectFailure (by omega) rfl⟩

/-! ## C1: mandatory headers always win and occur exactly once -/

/-- C1: for any host and caller header dict, the dict serialized into the
request text by `create_http_request` carries each mandatory header
exactly once with its fixed value — `headers.update({...})` overwrites
caller values in place and a dict has unique keys.  The second conjunct
ties the merged dict to the emitted text. -/
theorem create_http_request_mandatory_headers (host : String) (hs : Headers)
    (hnd : (hs.map Prod.fst).Nodup) :
    (∀ kv ∈ mandatoryHeaders host,
      countKey (mergedHeaders hs host) kv.1 = 1 ∧
      dictLookup (mergedHeaders hs host) kv.1 = some kv.2) ∧
    (∀ method path : String,
      create_http_request host method path (some hs) none
        = method ++ " " ++ path ++ " HTTP/1.1\r\n"
          ++ headerLines (mergedHeaders hs host) ++ "\r\n") := by
  have hle := fun k => countKey_le_one_of_nodup hs k hnd
  have hm : mergedHeaders hs host
      = dictSet (dictSet (dictSet (dictSet (dictSet hs "Host" host)
          "User-Agent" USER_AGENT)
          "Accept" "text/html,application/json,*/*")
          "Accept-Encoding" "identity")
          "Connection" "close" := rfl
  constructor
  · intro kv hkv
    simp only [mandatoryHeaders, List.mem_cons, List.not_mem_nil, or_false] at hkv
    rcases hkv with rfl | rfl | rfl | rfl | rfl
    · refine ⟨?_, ?_⟩
      · show countKey (mergedHeaders hs host) "Host" = 1
        rw [hm, countKey_dictSet_ne _ "Connection" "Host" _ (by decide),
            countKey_dictSet_ne _ "Accept-Encoding" "Host" _ (by decide),
            countKey_dictSet_ne _ "Accept" "Host" _ (by decide),
            countKey_dictSet_ne _ "User-Agent" "Host" _ (by decide)]
        exact countKey_dictSet_of_le_one _ _ _ (hle _)
      · show dictLookup (mergedHeaders hs host) "Host" = some host
        rw [hm, dictLookup_dictSet_ne _ "Connection" "Host" _ (by decide),
            dictLookup_dictSet_ne _ "Accept-Encoding" "Host" _ (by decide),
            dictLookup_dictSet_ne _ "Accept" "Host" _ (by decide),
            dictLookup_dictSet_ne _ "User-Agent" "Host" _ (by decide),
            dictLookup_dictSet_self]
    · refine ⟨?_, ?_⟩
      · show countKey (mergedHeaders hs host) "User-Agent" = 1
        rw [hm, countKey_dictSet_ne _ "Connection" "User-Agent" _ (by decide),
            countKey_dictSet_ne _ "Accept-Encoding" "User-Agent" _ (by decide),
            countKey_dictSet_ne _ "Accept" "User-Agent" _ (by decide)]
        refine countKey_dictSet_of_le_one _ _ _ ?_
        rw [countKey_dictSet_ne _ "Host" "User-Agent" _ (by decide)]
        exact hle _
      · show dictLookup (mergedHeaders hs host) "User-Agent" = some USER_AGENT
        rw [hm, dictLookup_dictSet_ne _ "Connection" "User-Agent" _ (by decide),
            dictLookup_dictSet_ne _ "Accept-Encoding" "User-Agent" _ (by decide),
            dictLookup_dictSet_ne _ "Accept" "User-Agent" _ (by decide),
            dictLookup_dictSet_self]
    · refine ⟨?_, ?_⟩
      · show countKey (mergedHeaders hs host) "Accept" = 1
        rw [hm, countKey_dictSet_ne _ "Connection" "Accept" _ (by decide),
            countKey_dictSet_ne _ "Accept-Encoding" "Accept" _ (by decide)]
        refine countKey_dictSet_of_le_one _ _ _ ?_
        rw [countKey_dictSet_ne _ "User-Agent" "Accept" _ (by decide),
            countKey_dictSet_ne _ "Host" "Accept" _ (by decide)]
        exact hle _
      · show dictLookup (mergedHeaders hs host) "Accept" = some "text/html,application/json,*/*"
        rw [hm, dictLookup_dictSet_ne _ "Connection" "Accept" _ (by decide),
            dictLookup_dictSet_ne _ "Accept-Encoding" "Accept" _ (by decide),
            dictLookup_dictSet_self]
    · refine ⟨?_, ?_⟩
      · show countKey (mergedHeaders hs host) "Accept-Encoding" = 1
        rw [hm, countKey_dictSet_ne _ "Connection" "Accept-Encoding" _ (by decide)]
        refine countKey_dictSet_of_le_one _ _ _ ?_
        rw [countKey_dictSet_ne _ "Accept" "Accept-Encoding" _ (by decide),
            countKey_dictSet_ne _ "User-Agent" "Accept-Encoding" _ (by decide),
            countKey_dictSet_ne _ "Host" "Accept-Encoding" _ (by decide)]
        exact hle _
      · show dictLookup (mergedHeaders hs host) "Accept-Encoding" = some "identity"
        rw [hm, dictLookup_dictSet_ne _ "Connection" "Accept-Encoding" _ (by decide),
            dictLookup_dictSet_self]
    · refine ⟨?_, ?_⟩
      · show countKey (mergedHeaders hs host) "Connection" = 1
        rw [hm]
        refine countKey_dictSet_of_le_one _ _ _ ?_
        rw [countKey_dictSet_ne _ "Accept-Encoding" "Connection" _ (by decide),
            countKey_dictSet_ne _ "Accept" "Connection" _ (by decide),
            countKey_dictSet_ne _ "User-Agent" "Connection" _ (by decide),
            countKey_dictSet_ne _ "Host" "Connection" _ (by decide)]
        exact hle _
      · show dictLookup (mergedHeaders hs host) "Connection" = some "close"
        rw [hm, dictLookup_dictSet_self]
  · intro method path
    rfl

/-- Witness for C1: a caller override of `Accept` loses. -/
theorem create_http_request_mandatory_headers_witness :
    countKey (mergedHeaders [("Accept", "junk"), ("X-Custom", "1")] "example.com") "Accept" = 1 ∧
    dictLookup (mergedHeaders [("Accept", "junk"), ("X-Custom", "1")] "example.com") "Accept"
      = some "text/html,application/json,*/*" ∧
    create_http_request "example.com" "GET" "/"
        (some [("Accept", "junk"), ("X-Custom", "1")]) none
      = "GET" ++ " " ++ "/" ++ " HTTP/1.1\r\n"
        ++ headerLines (mergedHeaders [("Accept", "junk"), ("X-Custom", "1")] "example.com")
        ++ "\r\n" := by
  have h := create_http_request_mandatory_headers "example.com"
    [("Accept", "junk"), ("X-Custom", "1")] (by decide)
  exact ⟨(h.1 ("Accept", "text/html,application/json,*/*") (by decide)).1,
         (h.1 ("Accept", "text/html,application/json,*/*") (by decide)).2,
         h.2 "GET" "/"⟩

/-! ## C4 and C9: redirect loop bounds -/

theorem contains_eq_false_of_not_mem {α : Type} [BEq α] [LawfulBEq α]
    {l : List α} {x : α} (h : x ∉ l) :
    l.contains x = false := by
  rw [Bool.eq_false_iff]
  intro hc
  exact h (List.elem_iff.mp hc)

theorem fetchLoop_iters_le (net : Net) (fuel : Nat) (cf : Bool) (o : String) (now : Int) :
    ∀ (rem : Nat) (vis : List String) (url : String) (last : Option Triple)
      (st : CacheState) (iters : Nat) (r : Option Triple) (s : CacheState) (i : Nat),
      fetchLoop net fuel cf o now rem vis url last st iters = some (.ok (r, s, i)) →
      i ≤ iters + rem := by
  intro rem
  induction rem with
  | zero =>
    intro vis url last st iters r s i h
    simp only [fetchLoop, Option.some.injEq, Except.ok.injEq, Prod.mk.injEq] at h
    omega
  | succ n ih =>
    intro vis url last st iters r s i h
    simp only [fetchLoop] at h
    split at h
    · exact absurd h (by simp)
    · exact absurd h (by simp)
    · split at h
      · split at h
        · simp only [Option.some.injEq, Except.ok.injEq, Prod.mk.injEq] at h
          omega
        · split at h
          · simp only [Option.some.injEq, Except.ok.injEq, Prod.mk.injEq] at h
            omega
          · have := ih _ _ _ _ _ _ _ _ h
            omega
      · simp only [Option.some.injEq, Except.ok.injEq, Prod.mk.injEq] at h
        omega

/-- A network with a 2-cycle: `a.example` redirects to `b.example` and
back (used by the C4 and C9 witnesses). -/
def netAB : Net := fun host _ _ =>
  if host = "a.example" then .ok "HTTP/1.1 301 Moved\r\nLocation: http://b.example/\r\n\r\n"
  else if host = "b.example" then .ok "HTTP/1.1 301 Moved\r\nLocation: http://a.example/\r\n\r\n"
  else .ok "HTTP/1.1 200 OK\r\n\r\nhello"

/-- C4: (i) for every network behaviour, cache flag and starting state, a
normal return of `fetch_url` executes at most `max_redirects` loop
iterations; (ii) on a 2-cycle (`a` redirects to `b`, `b` back to `a`),
the visited-set check stops the loop after the second iteration — one
beyond the first — returning the last fetched triple. -/
theorem fetch_url_termination_and_two_cycle :
    (∀ (net : Net) (fuel : Nat) (now : Int) (url : String) (maxR : Nat) (cf : Bool)
       (st : CacheState) (r : Option Triple) (s : CacheState) (i : Nat),
       fetch_url net fuel now url maxR cf st = some (.ok (r, s, i)) → i ≤ maxR) ∧
    (∀ (net : Net) (fuel : Nat) (now : Int) (a b : String) (maxR : Nat) (st : CacheState)
       (tA tB : Triple) (lA lB : String),
       a ≠ b → 2 ≤ maxR →
       fetch_step net fuel a = some (.ok tA) →
       strStartsWith tA.1 "3" = true →
       dictLookup tA.2.1 "Location" = some lA →
       resolve_location (parse_url a).2.2.1 (parse_url a).1 lA = b →
       fetch_step net fuel b = some (.ok tB) →
       strStartsWith tB.1 "3" = true →
       dictLookup tB.2.1 "Location" = some lB →
       resolve_location (parse_url b).2.2.1 (parse_url b).1 lB = a →
       fetch_url net fuel now a maxR false st = some (.ok (some tB, st, 2))) := by
  constructor
  · intro net fuel now url maxR cf st r s i h
    unfold fetch_url at h
    split at h
    · split at h
      · simp only [Option.some.injEq, Except.ok.injEq, Prod.mk.injEq] at h
        omega
      · have := fetchLoop_iters_le net fuel _ url now maxR [url] url none _ 0 r s i h
        omega
    · have := fetchLoop_iters_le net fuel _ url now maxR [url] url none _ 0 r s i h
      omega
  · intro net fuel now a b maxR st tA tB lA lB hab hmax hA h3A hlA hrA hB h3B hlB hrB
    obtain ⟨m, rfl⟩ : ∃ m, maxR = m + 2 := ⟨maxR - 2, by omega⟩
    simp only [fetch_url, Bool.false_eq_true, if_false]
    show fetchLoop net fuel false a now (m + 1 + 1) [a] a none st 0 = _
    simp only [fetchLoop]
    rw [hA]
    simp only [h3A, if_true, hlA]
    rw [hrA]
    rw [contains_eq_false_of_not_mem (by simpa using Ne.symm hab)]
    rw [if_neg (by decide : ¬ (false = true))]
    rw [hB]
    simp only [h3B, if_true, hlB]
    rw [hrB]
    have hmem : ([b, a].contains a) = true := by
      simp [List.contains_cons]
    rw [hmem, if_pos rfl]

/-- Witness for C4: the concrete 2-cycle `a.example ↔ b.example` stops
after 2 iterations with the second response, and 2 ≤ max_redirects. -/
theorem fetch_url_termination_and_two_cycle_witness :
    fetch_url netAB 1 0 "http://a.example/" 10 false []
      = some (.ok (some ("301", [("Status", "301 Moved"),
          ("Location", "http://a.example/")], ""), [], 2)) ∧
    (2 : Nat) ≤ 10 := by
  have h2 := fetch_url_termination_and_two_cycle.2 netAB 1 0
    "http://a.example/" "http://b.example/" 10 []
    ("301", [("Status", "301 Moved"), ("Location", "http://b.example/")], "")
    ("301", [("Status", "301 Moved"), ("Location", "http://a.example/")], "")
    "http://b.example/" "http://a.example/"
    (by decide) (by omega) rfl rfl rfl rfl rfl rfl rfl rfl
  exact ⟨h2, fetch_url_termination_and_two_cycle.1 netAB 1 0 "http://a.example/" 10 false []
    _ _ _ h2⟩

theorem fetchLoop_exhausts (net : Net) (fuel : Nat) (cf : Bool) (o : String) (now : Int)
    (chain : Nat → String) (T : Nat → Triple) (L : Nat → String) :
    ∀ (rem k : Nat) (last : Option Triple) (st : CacheState) (iters : Nat),
      (∀ i, i < k + rem → fetch_step net fuel (chain i) = some (.ok (T i))) →
      (∀ i, i < k + rem → strStartsWith (T i).1 "3" = true) →
      (∀ i, i < k + rem → dictLookup (T i).2.1 "Location" = some (L i)) →
      (∀ i, i < k + rem →
        resolve_location (parse_url (chain i)).2.2.1 (parse_url (chain i)).1 (L i)
          = chain (i + 1)) →
      (∀ i j, i ≤ k + rem → j ≤ k + rem → chain i = chain j → i = j) →
      1 ≤ rem →
      fetchLoop net fuel cf o now rem (((List.range (k + 1)).reverse).map chain) (chain k)
          last st iters
        = some (.ok (some (T (k + rem - 1)), st, iters + rem)) := by
  intro rem
  induction rem with
  | zero =>
    intro k last st iters _ _ _ _ _ hle
    exact absurd hle (by omega)
  | succ r ih =>
    intro k last st iters H1 H2 H3 H4 Hinj _
    simp only [fetchLoop]
    rw [H1 k (by omega)]
    simp only [H2 k (by omega), if_true]
    rw [H3 k (by omega)]
    dsimp only
    rw [H4 k (by omega)]
    have hnotmem : chain (k + 1) ∉ ((List.range (k + 1)).reverse).map chain := by
      intro hmem
      simp only [List.mem_map, List.mem_reverse, List.mem_range] at hmem
      obtain ⟨j, hj, hchain⟩ := hmem
      have := Hinj j (k + 1) (by omega) (by omega) hchain
      omega
    rw [contains_eq_false_of_not_mem hnotmem, if_neg (by decide : ¬ (false = true))]
    have hvis : chain (k + 1) :: ((List.range (k + 1)).reverse).map chain
        = ((List.range (k + 1 + 1)).reverse).map chain := by
      conv_rhs => rw [List.range_succ]
      simp
    rcases Nat.eq_zero_or_pos r with hr | hr
    · subst hr
      simp only [fetchLoop]
      norm_num
    · rw [hvis]
      have h := ih (k + 1) (some (T k)) st (iters + 1)
        (fun i hi => H1 i (by omega)) (fun i hi => H2 i (by omega))
        (fun i hi => H3 i (by omega)) (fun i hi => H4 i (by omega))
        (fun i j hi hj hc => Hinj i j (by omega) (by omega) hc) hr
      rw [h]
      have e1 : k + 1 + r - 1 = k + (r + 1) - 1 := by omega
      have e2 : iters + 1 + r = iters + (r + 1) := by omega
      rw [e1, e2]

/-- C9: if every response along the chain is a 3xx with a `Location`
resolving to a fresh URL, the loop exhausts `max_redirects` iterations and
`fetch_url` returns the last fetched `(status_code, headers, body)` triple
as a usable response value, not an error. -/
theorem fetch_url_exhaustion_returns_last (net : Net) (fuel : Nat) (now : Int)
    (st : CacheState) (chain : Nat → String) (T : Nat → Triple) (L : Nat → String)
    (maxR : Nat)
    (h1 : ∀ i, i < maxR → fetch_step net fuel (chain i) = some (.ok (T i)))
    (h2 : ∀ i, i < maxR → strStartsWith (T i).1 "3" = true)
    (h3 : ∀ i, i < maxR → dictLookup (T i).2.1 "Location" = some (L i))
    (h4 : ∀ i, i < maxR →
      resolve_location (parse_url (chain i)).2.2.1 (parse_url (chain i)).1 (L i)
        = chain (i + 1))
    (hinj : ∀ i j, i ≤ maxR → j ≤ maxR → chain i = chain j → i = j)
    (hpos : 1 ≤ maxR) :
    fetch_url net fuel now (chain 0) maxR false st
      = some (.ok (some (T (maxR - 1)), st, maxR)) := by
  have h := fetchLoop_exhausts net fuel false (chain 0) now chain T L maxR 0 none st 0
    (fun i hi => h1 i (by omega)) (fun i hi => h2 i (by omega))
    (fun i hi => h3 i (by omega)) (fun i hi => h4 i (by omega))
    (fun i j hi hj hc => hinj i j (by omega) (by omega) hc) (by omega)
  have hv : ((List.range (0 + 1)).reverse).map chain = [chain 0] := by
    rfl
  rw [hv] at h
  simp only [Nat.zero_add] at h
  simp only [fetch_url, Bool.false_eq_true, if_false]
  exact h

/-- Witness for C9: with `max_redirects = 1` and a redirecting server, the
loop exhausts after one iteration and returns the 301 triple. -/
theorem fetch_url_exhaustion_returns_last_witness :
    fetch_url netAB 1 0 "http://a.example/" 1 false []
      = some (.ok (some ("301", [("Status", "301 Moved"),
          ("Location", "http://b.example/")], ""), [], 1)) := by
  have h := fetch_url_exhaustion_returns_last netAB 1 0 []
      (fun i => if i = 0 then "http://a.example/" else "http://b.example/")
      (fun _ => ("301", [("Status", "301 Moved"), ("Location", "http://b.example/")], ""))
      (fun _ => "http://b.example/") 1
      (fun i hi => by interval_cases i; exact rfl)
      (fun i hi => rfl)
      (fun i hi => rfl)
      (fun i hi => by interval_cases i; exact rfl)
      (fun i j hi hj hc => by
        interval_cases i <;> interval_cases j <;>
          first
            | rfl
            | exact absurd hc (by decide))
      (by omega)
  exact h

/-! ## C2: chunked round-trip — hex printer/parser lemmas -/

theorem hexDigit_good (k : Nat) (h : k < 16) :
    hexVal? (hexDigit k) = some k ∧ hexDigit k ≠ '\r' ∧ pyWS (hexDigit k) = false ∧
    hexDigit k ≠ ';' ∧ hexDigit k ≠ '+' ∧ hexDigit k ≠ '-' ∧ hexDigit k ≠ '_' := by
  interval_cases k <;> exact (by decide)

theorem hexDigitsRest_cons_digit (k : Nat) (hk : k < 16) (rest : List Char) (acc : Nat) :
    hexDigitsRest (hexDigit k :: rest) acc = hexDigitsRest rest (acc * 16 + k) := by
  have h := hexDigit_good k hk
  rw [hexDigitsRest.eq_def]
  simp only
  rw [if_neg h.2.2.2.2.2.2, h.1]

/-- `16 ^ (number of hex digits of n)`, following `toHexCore`'s recursion. -/
def hexWeight : Nat → Nat → Nat
  | 0, _ => 16
  | fuel + 1, n => if n < 16 then 16 else 16 * hexWeight fuel (n / 16)

theorem toHexCore_chars (fuel : Nat) :
    ∀ (n : Nat) (acc : List Char), n ≤ fuel →
      ∀ c ∈ toHexCore fuel n acc, (∃ k, k < 16 ∧ c = hexDigit k) ∨ c ∈ acc := by
  induction fuel with
  | zero =>
    intro n acc hn c hc
    have : n = 0 := by omega
    subst this
    simp only [toHexCore, List.mem_cons] at hc
    rcases hc with rfl | hc
    · exact Or.inl ⟨0, by omega, rfl⟩
    · exact Or.inr hc
  | succ fuel ih =>
    intro n acc hn c hc
    simp only [toHexCore] at hc
    by_cases h16 : n < 16
    · rw [if_pos h16] at hc
      rcases List.mem_cons.mp hc with rfl | hc
      · exact Or.inl ⟨n, h16, rfl⟩
      · exact Or.inr hc
    · rw [if_neg h16] at hc
      have hle : n / 16 ≤ fuel := by
        have := Nat.div_lt_self (by omega : 0 < n) (by omega : 1 < 16)
        omega
      rcases ih (n / 16) _ hle c hc with h | h
      · exact Or.inl h
      · rcases List.mem_cons.mp h with rfl | h
        · exact Or.inl ⟨n % 16, Nat.mod_lt _ (by omega), rfl⟩
        · exact Or.inr h

theorem toHexCore_ne_nil (fuel : Nat) :
    ∀ (n : Nat) (acc : List Char), toHexCore fuel n acc ≠ [] := by
  induction fuel with
  | zero => intro n acc; simp [toHexCore]
  | succ fuel ih =>
    intro n acc
    simp only [toHexCore]
    by_cases h16 : n < 16
    · rw [if_pos h16]; simp
    · rw [if_neg h16]; exact ih _ _

theorem toHexCore_fold (fuel : Nat) :
    ∀ (n : Nat) (acc : List Char) (a : Nat), n ≤ fuel →
      hexDigitsRest (toHexCore fuel n acc) a
        = hexDigitsRest acc (a * hexWeight fuel n + n) := by
  induction fuel with
  | zero =>
    intro n acc a hn
    have : n = 0 := by omega
    subst this
    simp only [toHexCore, hexWeight]
    rw [hexDigitsRest_cons_digit 0 (by omega)]
  | succ fuel ih =>
    intro n acc a hn
    simp only [toHexCore, hexWeight]
    by_cases h16 : n < 16
    · rw [if_pos h16, if_pos h16, hexDigitsRest_cons_digit n h16]
    · rw [if_neg h16, if_neg h16]
      have hle : n / 16 ≤ fuel := by
        have := Nat.div_lt_self (by omega : 0 < n) (by omega : 1 < 16)
        omega
      rw [ih (n / 16) _ a hle]
      rw [hexDigitsRest_cons_digit (n % 16) (Nat.mod_lt _ (by omega))]
      congr 1
      have hsw : a * (16 * hexWeight fuel (n / 16))
          = (a * hexWeight fuel (n / 16)) * 16 := by ring
      rw [hsw]
      generalize a * hexWeight fuel (n / 16) = t
      omega

theorem toHexL_digits (n : Nat) :
    ∀ c ∈ toHexL n, ∃ k, k < 16 ∧ c = hexDigit k := by
  intro c hc
  rcases toHexCore_chars n n [] le_rfl c hc with h | h
  · exact h
  · exact absurd h (List.not_mem_nil c)

theorem hexDigitsRest_toHexL (n : Nat) : hexDigitsRest (toHexL n) 0 = some n := by
  unfold toHexL
  rw [toHexCore_fold n n [] 0 le_rfl]
  simp [hexDigitsRest]

theorem dropWhile_eq_self_of_none {p : Char → Bool} {l : List Char}
    (h : ∀ c ∈ l, p c = false) : l.dropWhile p = l := by
  cases l with
  | nil => rfl
  | cons c t => simp [List.dropWhile_cons, h c (List.mem_cons_self c t)]

theorem pyStrip_eq_self {l : List Char} (h : ∀ c ∈ l, pyWS c = false) :
    pyStrip l = l := by
  unfold pyStrip
  rw [dropWhile_eq_self_of_none h]
  rw [dropWhile_eq_self_of_none (fun c hc => h c (List.mem_reverse.mp hc))]
  exact List.reverse_reverse l

theorem parseHexBody_digits :
    ∀ (l : List Char), (∀ c ∈ l, ∃ k, k < 16 ∧ c = hexDigit k) → l ≠ [] →
      parseHexBody l = hexDigitsRest l 0 := by
  intro l hl hne
  match l with
  | [] => exact absurd rfl hne
  | c :: rest =>
    obtain ⟨k, hk, rfl⟩ := hl c (List.mem_cons_self c rest)
    by_cases h0 : hexDigit k = '0'
    · have hk0 : k = 0 := by
        by_contra hne0
        have hd : hexDigit k ≠ '0' := by
          interval_cases k
          · exact absurd rfl hne0
          all_goals decide
        exact hd h0
      subst hk0
      rw [h0]
      match rest with
      | [] => decide
      | x :: rest2 =>
        obtain ⟨kx, hkx, rfl⟩ := hl x (by simp [h0])
        have hxx : ¬ (hexDigit kx = 'x' ∨ hexDigit kx = 'X') := by
          interval_cases kx <;> decide
        simp only [parseHexBody, if_true]
        rw [if_neg hxx]
        have h00 : ('0' : Char) = hexDigit 0 := by decide
        rw [h00, hexDigitsRest_cons_digit 0 (by omega)]
    · simp only [parseHexBody]
      rw [if_neg h0, (hexDigit_good k hk).1,
          hexDigitsRest_cons_digit k hk]
      simp

theorem pyIntHex_toHexL (n : Nat) : pyIntHex (toHexL n) = some (n : Int) := by
  have hchars := toHexL_digits n
  have hws : ∀ c ∈ toHexL n, pyWS c = false := by
    intro c hc
    obtain ⟨k, hk, rfl⟩ := hchars c hc
    exact (hexDigit_good k hk).2.2.1
  have hstrip : pyStrip (toHexL n) = toHexL n := pyStrip_eq_self hws
  rw [pyIntHex.eq_def, hstrip]
  cases hL : toHexL n with
  | nil => exact absurd hL (toHexCore_ne_nil n n [])
  | cons c rest =>
    obtain ⟨k, hk, hck⟩ := hchars c (hL ▸ List.mem_cons_self c rest)
    simp only
    rw [if_neg (by rw [hck]; exact (hexDigit_good k hk).2.2.2.2.1),
        if_neg (by rw [hck]; exact (hexDigit_good k hk).2.2.2.2.2.1)]
    rw [← hL, parseHexBody_digits (toHexL n) hchars
          (by rw [hL]; exact List.cons_ne_nil c rest),
        hexDigitsRest_toHexL]
    rfl

theorem findAux_no_cr (hex : List Char) :
    ∀ (rest : List Char), (∀ c ∈ hex, c ≠ '\r') →
      findAux (hex ++ '\r' :: '\n' :: rest) crlf = some hex.length := by
  induction hex with
  | nil =>
    intro rest _
    simp [findAux, crlf, List.isPrefixOf]
  | cons c t ih =>
    intro rest h
    have hc : c ≠ '\r' := h c (List.mem_cons_self c t)
    have hih := ih rest (fun x hx => h x (List.mem_cons_of_mem c hx))
    have hpre : ¬ (crlf <+: c :: (t ++ '\r' :: '\n' :: rest)) := by
      intro hp
      obtain ⟨u, hu⟩ := hp
      have h1 : '\r' = c := by
        simpa [crlf] using congrArg List.head? hu
      exact hc h1.symm
    simp only [List.cons_append, findAux]
    split
    · next htrue => exact absurd (List.isPrefixOf_iff_prefix.mp htrue) hpre
    · simp only [List.append_eq]
      rw [hih]
      simp [List.length_cons]

theorem pyFind_pre (pre hex rest : List Char) (hhex : ∀ c ∈ hex, c ≠ '\r') :
    pyFind (pre ++ (hex ++ '\r' :: '\n' :: rest)) crlf ((pre.length : Nat) : Int)
      = (((pre.length + hex.length : Nat) : Nat) : Int) := by
  simp only [pyFind]
  rw [if_neg (by omega : ¬ ((pre.length : Nat) : Int) < 0), Int.toNat_natCast,
      List.drop_left, findAux_no_cr hex rest hhex]

theorem pySlice_middle (p mid s : List Char) (a b : Int)
    (ha : a = (p.length : Int)) (hb : b = (p.length : Int) + (mid.length : Int)) :
    pySlice (p ++ (mid ++ s)) a b = mid := by
  subst ha hb
  unfold pySlice pyClamp
  have hlen : (p ++ (mid ++ s)).length = p.length + mid.length + s.length := by
    simp [List.length_append]
    omega
  rw [if_neg (by omega), if_neg (by omega)]
  have h1 : ((p.length : Int) + (mid.length : Int)).toNat = p.length + mid.length := by
    omega
  rw [h1, Int.toNat_natCast, hlen]
  rw [min_eq_left (by omega), min_eq_left (by omega)]
  rw [List.take_append_eq_append_take, List.take_of_length_le (by omega),
      List.take_append_eq_append_take, List.take_of_length_le (by omega : mid.length ≤ p.length + mid.length - p.length)]
  rw [show p.length + mid.length - p.length - mid.length = 0 by omega, List.take_zero,
      List.append_nil]
  exact List.drop_left p mid

theorem pySlice_middle_of_eq (l p mid s : List Char) (hl : l = p ++ (mid ++ s))
    (a b : Int) (ha : a = (p.length : Int))
    (hb : b = (p.length : Int) + (mid.length : Int)) :
    pySlice l a b = mid := by
  subst hl
  exact pySlice_middle p mid s a b ha hb

theorem decodeLoop_terminator (pre acc : List Char) (fuel : Nat) :
    decodeLoop (pre ++ (['0'] ++ '\r' :: '\n' :: ('\r' :: '\n' :: []))) (fuel + 1)
      ((pre.length : Nat) : Int) acc = some acc := by
  have hlen : (pre ++ (['0'] ++ '\r' :: '\n' :: ('\r' :: '\n' :: []))).length
      = pre.length + 5 := by
    simp [List.length_append]
  have hfind := pyFind_pre pre ['0'] ('\r' :: '\n' :: []) (by decide)
  simp only [List.length_singleton] at hfind
  simp only [decodeLoop]
  rw [hlen, hfind]
  rw [if_pos (show ((pre.length : Nat) : Int) < ((pre.length + 5 : Nat) : Int) by omega)]
  rw [if_neg (show ¬ (((pre.length + 1 : Nat) : Int) = -1) by omega)]
  rw [pySlice_middle_of_eq _ pre ['0'] ('\r' :: '\n' :: ('\r' :: '\n' :: [])) rfl _ _ rfl
      (by push_cast; norm_num)]
  rw [show pyStrip ['0'] = ['0'] from rfl]
  rw [show (['0'].contains ';') = false from rfl]
  rw [if_neg (by decide : ¬ (false = true))]
  rw [show pyIntHex ['0'] = some 0 from rfl]
  simp

theorem decodeLoop_chunk_step (pre c rest acc : List Char) (fuel : Nat) (hc : c ≠ []) :
    decodeLoop (pre ++ (toHexL c.length ++ ('\r' :: '\n' :: (c ++ ('\r' :: '\n' :: rest)))))
      (fuel + 1) ((pre.length : Nat) : Int) acc
      = decodeLoop (pre ++ (toHexL c.length ++ ('\r' :: '\n' :: (c ++ ('\r' :: '\n' :: rest)))))
          fuel
          (((pre.length + ((toHexL c.length).length + 2 + (c.length + 2)) : Nat)) : Int)
          (acc ++ c) := by
  have hchars := toHexL_digits c.length
  have hcr : ∀ x ∈ toHexL c.length, x ≠ '\r' := by
    intro x hx
    obtain ⟨k, hk, rfl⟩ := hchars x hx
    exact (hexDigit_good k hk).2.1
  have hws : ∀ x ∈ toHexL c.length, pyWS x = false := by
    intro x hx
    obtain ⟨k, hk, rfl⟩ := hchars x hx
    exact (hexDigit_good k hk).2.2.1
  have hsemi : (toHexL c.length).contains ';' = false := by
    refine contains_eq_false_of_not_mem ?_
    intro hmem
    obtain ⟨k, hk, hkk⟩ := hchars ';' hmem
    exact (hexDigit_good k hk).2.2.2.1 hkk.symm
  have hne : toHexL c.length ≠ [] := toHexCore_ne_nil _ _ _
  have hhpos : 1 ≤ (toHexL c.length).length := List.length_pos.mpr hne
  have hcpos : 1 ≤ c.length := List.length_pos.mpr hc
  have hlen : (pre ++ (toHexL c.length ++ ('\r' :: '\n' :: (c ++ ('\r' :: '\n' :: rest))))).length
      = pre.length + ((toHexL c.length).length + 2 + (c.length + (2 + rest.length))) := by
    simp [List.length_append]
    omega
  have hfind := pyFind_pre pre (toHexL c.length) (c ++ ('\r' :: '\n' :: rest)) hcr
  simp only [decodeLoop]
  rw [hlen, hfind]
  rw [if_pos (show ((pre.length : Nat) : Int)
        < ((pre.length + ((toHexL c.length).length + 2 + (c.length + (2 + rest.length))) : Nat) : Int)
      by omega)]
  rw [if_neg (show ¬ (((pre.length + (toHexL c.length).length : Nat) : Int) = -1) by omega)]
  rw [pySlice_middle_of_eq _ pre (toHexL c.length)
        ('\r' :: '\n' :: (c ++ ('\r' :: '\n' :: rest))) rfl _ _ rfl (by push_cast; ring)]
  rw [pyStrip_eq_self hws, hsemi, if_neg (by decide : ¬ (false = true)),
      pyIntHex_toHexL c.length]
  simp only
  rw [if_neg (show ¬ ((c.length : Int) = 0) by omega)]
  rw [if_pos (show ((pre.length + (toHexL c.length).length : Nat) : Int) + 2 + (c.length : Int)
        ≤ ((pre.length + ((toHexL c.length).length + 2 + (c.length + (2 + rest.length))) : Nat) : Int)
      by push_cast; omega)]
  rw [pySlice_middle_of_eq _ (pre ++ toHexL c.length ++ ['\r', '\n']) c ('\r' :: '\n' :: rest)
        (by simp) _ _ (by simp [List.length_append]; ring)
        (by simp [List.length_append]; ring)]
  rw [show ((pre.length + (toHexL c.length).length : Nat) : Int) + 2 + (c.length : Int) + 2
        = (((pre.length + ((toHexL c.length).length + 2 + (c.length + 2)) : Nat)) : Int)
      by push_cast; ring]

theorem decodeLoop_encodeChunks :
    ∀ (cs : List (List Char)) (pre acc : List Char),
      (∀ c ∈ cs, c ≠ []) →
      decodeLoop (pre ++ encodeChunks cs) (cs.length + 1) ((pre.length : Nat) : Int) acc
        = some (acc ++ cs.flatten) := by
  intro cs
  induction cs with
  | nil =>
    intro pre acc _
    have hshape : encodeChunks ([] : List (List Char))
        = ['0'] ++ '\r' :: '\n' :: ('\r' :: '\n' :: []) := by
      simp [encodeChunks, crlf]
    rw [hshape]
    simpa using decodeLoop_terminator pre acc 0
  | cons c cs' ih =>
    intro pre acc h
    have hcne : c ≠ [] := h c (List.mem_cons_self c cs')
    have hshape : pre ++ encodeChunks (c :: cs')
        = pre ++ (toHexL c.length
            ++ ('\r' :: '\n' :: (c ++ ('\r' :: '\n' :: encodeChunks cs')))) := by
      simp [encodeChunks, encodeChunk, crlf, List.append_assoc]
    simp only [List.length_cons]
    rw [hshape]
    rw [decodeLoop_chunk_step pre c (encodeChunks cs') acc (cs'.length + 1) hcne]
    have hbody : pre ++ (toHexL c.length
          ++ ('\r' :: '\n' :: (c ++ ('\r' :: '\n' :: encodeChunks cs'))))
        = (pre ++ encodeChunk c) ++ encodeChunks cs' := by
      simp [encodeChunk, crlf, List.append_assoc]
    have hidx : ((pre.length + ((toHexL c.length).length + 2 + (c.length + 2)) : Nat) : Int)
        = (((pre ++ encodeChunk c).length : Nat) : Int) := by
      simp [encodeChunk, crlf, List.length_append]
      omega
    rw [hbody, hidx, ih (pre ++ encodeChunk c) (acc ++ c)
          (fun x hx => h x (List.mem_cons_of_mem c hx))]
    simp [List.flatten_cons, List.append_assoc]

/-- C2: decoding inverts any well-formed chunked encoding: for every list
of non-empty chunks, `decode_chunked_response` applied to the framed
stream (hex size line, CRLF, chunk data, CRLF, …, zero-size terminator)
returns exactly the concatenated chunk data, within one loop iteration per
chunk plus one for the terminator. -/
theorem decode_chunked_roundtrip (cs : List (List Char)) (h : ∀ c ∈ cs, c ≠ []) :
    decode_chunked_response (cs.length + 1) (encodeChunks cs) = some cs.flatten := by
  have hmain := decodeLoop_encodeChunks cs [] [] h
  simpa [decode_chunked_response] using hmain

/-- Witness for C2: the chunk stream `"4\r\nWiki\r\n5\r\npedia\r\n0\r\n\r\n"`
decodes to `"Wikipedia"`. -/
theorem decode_chunked_roundtrip_witness :
    encodeChunks ["Wiki".data, "pedia".data] = "4\r\nWiki\r\n5\r\npedia\r\n0\r\n\r\n".data ∧
    decode_chunked_response 3 ("4\r\nWiki\r\n5\r\npedia\r\n0\r\n\r\n".data)
      = some ("Wikipedia".data) := by
  refine ⟨by decide, ?_⟩
  have h2 : decode_chunked_response 3 ("4\r\nWiki\r\n5\r\npedia\r\n0\r\n\r\n".data)
      = some (["Wiki".data, "pedia".data].flatten) := by
    have h := decode_chunked_roundtrip ["Wiki".data, "pedia".data] (by decide)
    rw [show encodeChunks ["Wiki".data, "pedia".data]
          = "4\r\nWiki\r\n5\r\npedia\r\n0\r\n\r\n".data from by decide] at h
    exact h
  rw [h2]
  decide
